import Mathlib

/-!
Verification development for the NihonGo text-to-speech utility.

The repository holds two near-duplicate variants of one script:
`src/data/tts.js` (modelled below in namespace `Tts`) and
`src/unnamed/part_000` (modelled in namespace `TtsAlt`).  Strings are
modelled as `List Char`; a possibly-null string argument is modelled as
`Option (List Char)` (`none` is JavaScript `null`/`undefined`).

The pure text functions (`cleanJapaneseText`, `extractJapaneseOnly`)
are shared verbatim by the variants that contain them; the stateful
speech-request functions differ between the two variants and are
modelled separately.
-/

/-! ## Character classes used by the regular expressions in the source -/

/-- Opening parenthesis of either width class, the character class
`[（(]` of the regex in `cleanJapaneseText`. -/
def isOpen (c : Char) : Bool := c == '(' || c == '（'

/-- Closing parenthesis of either width class, the character class
`[）)]` of the regex in `cleanJapaneseText`. -/
def isClose (c : Char) : Bool := c == ')' || c == '）'

/-- JavaScript regex line terminators, which the `.` metacharacter does
not match: `\n`, `\r`, U+2028, U+2029. -/
def isLineTerm (c : Char) : Bool :=
  c == '\n' || c == '\r' || c == '\u2028' || c == '\u2029'

/-- Either parenthesis character of either width class. -/
def isParenChar (c : Char) : Bool := isOpen c || isClose c

/-- JavaScript whitespace (the `\s` class and the set trimmed by
`String.prototype.trim`): space, tab, line terminators, form/vertical
feed, NBSP and the Unicode space separators. -/
def isWS (c : Char) : Bool :=
  c == ' ' || c == '\t' || c == '\n' || c == '\r' || c == '\x0b' ||
  c == '\x0c' || c == '\u00A0' || c == '\u1680' ||
  (decide (0x2000 ≤ c.toNat) && decide (c.toNat ≤ 0x200A)) ||
  c == '\u2028' || c == '\u2029' || c == '\u202F' || c == '\u205F' ||
  c == '\u3000' || c == '\uFEFF'

/-! ## The regex replace `text.replace(/[（(].*?[）)]/g, "")`

JavaScript semantics: scan left to right; a match starts at an opening
parenthesis, the lazy `.*?` consumes non-line-terminator characters up
to the first closing parenthesis, and the whole match is deleted.  If a
line terminator intervenes before any closing parenthesis, no match
starts at that opener. -/

/-- Attempt the `.*?[）)]` part of the regex after an opener: return the
remainder after the first closing parenthesis, provided no line
terminator occurs before it. -/
def matchBody : List Char → Option (List Char)
  | [] => none
  | c :: cs =>
    if isClose c then some cs
    else if isLineTerm c then none
    else matchBody cs

/-- Fuelled worker for the global regex deletion; the fuel only serves
to make the recursion structural, `l.length` fuel is always enough. -/
def removeParensF : Nat → List Char → List Char
  | 0, l => l
  | _, [] => []
  | fuel + 1, c :: cs =>
    if isOpen c then
      match matchBody cs with
      | some rest => removeParensF fuel rest
      | none => c :: removeParensF fuel cs
    else c :: removeParensF fuel cs

/-- `text.replace(/[（(].*?[）)]/g, "")` on a character list. -/
def removeParens (l : List Char) : List Char := removeParensF l.length l

/-! ## `String.prototype.trim` -/

/-- Drop leading JavaScript whitespace. -/
def trimL (l : List Char) : List Char := l.dropWhile isWS

/-- Drop trailing JavaScript whitespace. -/
def trimR (l : List Char) : List Char := (trimL l.reverse).reverse

/-- `String.prototype.trim`: drop leading and trailing whitespace. -/
def trimStr (l : List Char) : List Char := trimR (trimL l)

/-- `cleanJapaneseText` from `src/data/tts.js` lines 16-20 (identical in
`src/unnamed/part_000`): `if (!text) return "";` then
`text.replace(/[（(].*?[）)]/g, "").trim()`.  The spec calls this
operation `cleanAnnotations`. -/
def cleanJapaneseText (text : Option (List Char)) : List Char :=
  match text with
  | none => []
  | some s => if s = [] then [] else trimStr (removeParens s)

/-! ## Predicates used to state claims about `cleanJapaneseText` -/

/-- The input contains a spot where the deletion regex can match: an
opening parenthesis followed, with no intervening line terminator, by a
closing parenthesis. -/
def hasMatch : List Char → Bool
  | [] => false
  | c :: cs => (isOpen c && (matchBody cs).isSome) || hasMatch cs

/-- The input contains a parenthesized group in the loose sense of the
claims: an opening parenthesis with some later closing parenthesis. -/
def hasParenGroup : List Char → Bool
  | [] => false
  | c :: cs => (isOpen c && cs.any isClose) || hasParenGroup cs


/-! ## `extractJapaneseOnly` (only in `src/data/tts.js`, lines 27-49)

Pipeline of the source: replace `<br>` markers by a newline, strip the
remaining markup tags, split on newline, take `lines[0]`, trim it,
delete one trailing parenthesized group, then run `cleanJapaneseText`.
The spec calls this operation `extractPrimaryText`. -/

/-- Lower- or upper-case `b`. -/
def isB (c : Char) : Bool := c == 'b' || c == 'B'

/-- Lower- or upper-case `r`. -/
def isR (c : Char) : Bool := c == 'r' || c == 'R'

/-- After `<br` the regex `/<br\s*\/?>/gi` allows whitespace, an
optional slash, then `>`: return the remainder on success. -/
def brClose : List Char → Option (List Char)
  | [] => none
  | c :: cs =>
    if c == '>' then some cs
    else if c == '/' then
      match cs with
      | '>' :: r => some r
      | _ => none
    else if isWS c then brClose cs
    else none

/-- Try to match `br\s*\/?>` (case-insensitive) right after a `<`. -/
def brMatch : List Char → Option (List Char)
  | c1 :: c2 :: rest => if isB c1 && isR c2 then brClose rest else none
  | _ => none

/-- Fuelled worker for `text.replace(/<br\s*\/?>/gi, "\n")`. -/
def replaceBrF : Nat → List Char → List Char
  | 0, l => l
  | _, [] => []
  | fuel + 1, c :: cs =>
    if c == '<' then
      match brMatch cs with
      | some rest => '\n' :: replaceBrF fuel rest
      | none => c :: replaceBrF fuel cs
    else c :: replaceBrF fuel cs

/-- `text.replace(/<br\s*\/?>/gi, "\n")` on a character list. -/
def replaceBr (l : List Char) : List Char := replaceBrF l.length l

/-- The `[^>]*>` part of the tag regex: the remainder after the first
`>`, if any. -/
def tagEnd : List Char → Option (List Char)
  | [] => none
  | c :: cs => if c == '>' then some cs else tagEnd cs

/-- Fuelled worker for `cleanText.replace(/<[^>]*>/g, "")`. -/
def stripTagsF : Nat → List Char → List Char
  | 0, l => l
  | _, [] => []
  | fuel + 1, c :: cs =>
    if c == '<' then
      match tagEnd cs with
      | some rest => stripTagsF fuel rest
      | none => c :: stripTagsF fuel cs
    else c :: stripTagsF fuel cs

/-- `cleanText.replace(/<[^>]*>/g, "")` on a character list. -/
def stripTags (l : List Char) : List Char := stripTagsF l.length l

/-- `cleanText.split("\n")`: JavaScript split always yields at least one
(possibly empty) segment. -/
def splitNL : List Char → List (List Char)
  | [] => [[]]
  | c :: cs =>
    if c == '\n' then [] :: splitNL cs
    else
      match splitNL cs with
      | [] => [[c]]
      | l :: ls => (c :: l) :: ls

/-- All characters are JavaScript whitespace. -/
def allWS (l : List Char) : Bool := l.all isWS

/-- The `.*?[）)]\s*$` part of the trailing-group regex, tried after an
opener: succeed when some closing parenthesis is reachable without
crossing a line terminator and everything after it is whitespace. -/
def tailBody : List Char → Bool
  | [] => false
  | c :: cs =>
    if isClose c && allWS cs then true
    else if isLineTerm c then false
    else tailBody cs

/-- Does a match of `/\s*[（(].*?[）)]\s*$/` start exactly here?  The
leading `\s*` consumes whitespace up to an opener. -/
def matchTrailAt : List Char → Bool
  | [] => false
  | c :: cs =>
    if isOpen c then tailBody cs
    else if isWS c then matchTrailAt cs
    else false

/-- `japanesePart.replace(/\s*[（(].*?[）)]\s*$/g, "")`: every possible
match ends at the end of the string, so the replacement keeps the
prefix before the leftmost match start. -/
def dropTrailGroup : List Char → List Char
  | [] => []
  | c :: cs => if matchTrailAt (c :: cs) then [] else c :: dropTrailGroup cs

/-- `extractJapaneseOnly` from `src/data/tts.js` lines 27-49.  The spec
calls this operation `extractPrimaryText`.  Note the source tests
`lines.length > 0`, which JavaScript split makes always true, and it
takes `lines[0]` whether or not that first segment is empty. -/
def extractJapaneseOnly (text : Option (List Char)) : List Char :=
  match text with
  | none => []
  | some t =>
    if t = [] then []
    else
      let cleanText := stripTags (replaceBr t)
      match splitNL cleanText with
      | [] => cleanJapaneseText (some t)
      | l0 :: _ => cleanJapaneseText (some (dropTrailGroup (trimStr l0)))

/-- Modelled from the spec: the `extractPrimaryText` the specification
describes, identical to `extractJapaneseOnly` except that step (c)
takes the first NON-EMPTY newline segment and falls back to
`cleanAnnotations` on the whole raw input when no non-empty segment
exists.  Introduced only to compare the spec sentence with the code. -/
def specExtractPrimaryText (text : Option (List Char)) : List Char :=
  match text with
  | none => []
  | some t =>
    if t = [] then []
    else
      let cleanText := stripTags (replaceBr t)
      match (splitNL cleanText).filter (fun s => !s.isEmpty) with
      | [] => cleanJapaneseText (some t)
      | l0 :: _ => cleanJapaneseText (some (dropTrailGroup (trimStr l0)))


/-! ## State model of the speech-request lifecycle

Single-threaded event semantics.  One `TtsState` bundles the module
globals (`currentUtterance`, `isSpeaking`), the pending `setTimeout`
callbacks (FIFO, each carrying its captured clean text), and a model of
the speech capability (`window.speechSynthesis`): the queue of
submitted-but-unresolved utterance ids and whether the head utterance
has received its start notification.  Ghost counters record observable
effects: warnings, error diagnostics, issued hard cancels, handled
start notifications, and whether an exception escaped uncaught.

Each source event (a call, a timer firing, a capability notification)
is one total step function.  The Boolean argument of `fireTimer` says
whether the capability accepts the submission (`true`) or throws on
`synth.speak` (`false`). -/

structure TtsState where
  currentUtterance : Option Nat
  isSpeaking : Bool
  timers : List (List Char)
  synthQueue : List Nat
  curStarted : Bool
  warnings : Nat
  diagnostics : Nat
  startsHandled : Nat
  cancels : Nat
  uncaught : Bool
  nextId : Nat
deriving DecidableEq

/-- Module-load state: flags false, nothing queued, nothing counted. -/
def initState : TtsState :=
  { currentUtterance := none, isSpeaking := false, timers := [],
    synthQueue := [], curStarted := false, warnings := 0,
    diagnostics := 0, startsHandled := 0, cancels := 0,
    uncaught := false, nextId := 0 }

/-- The capability flag `synth.speaking`: an utterance has started and
not yet resolved. -/
def synthSpeakingB (s : TtsState) : Bool := s.curStarted

/-- The capability flag `synth.pending`: the queue holds utterances
that have not started yet. -/
def synthPendingB (s : TtsState) : Bool :=
  decide ((if s.curStarted then 1 else 0) < s.synthQueue.length)

/-- `synth.cancel()`: the capability drops every queued utterance.  The
ghost counter records that a hard cancel was issued. -/
def synthCancel (s : TtsState) : TtsState :=
  { s with synthQueue := [], curStarted := false, cancels := s.cancels + 1 }

/-- `stopSpeech` (identical in both variants): cancel the capability
only when `synth.speaking`, then unconditionally clear the flag and the
stored utterance reference. -/
def stopSpeech (s : TtsState) : TtsState :=
  let s1 := if synthSpeakingB s then synthCancel s else s
  { s1 with isSpeaking := false, currentUtterance := none }

/-- `isTTSSpeaking` (identical in both variants): a pure read of the
`isSpeaking` flag. -/
def isTTSSpeaking (s : TtsState) : Bool := s.isSpeaking

namespace Tts

/-- Synchronous part of `speakJapanese` from `src/data/tts.js` lines
56-124: clean the text; on empty, warn and return; otherwise call
`stopSpeech()` and arm a 50 ms `setTimeout` carrying the clean text.
The timeout is never cleared by anything.  (The `rate` argument touches
no modelled observable and is omitted.) -/
def speakJapanese (text : Option (List Char)) (s : TtsState) : TtsState :=
  let cleanText := cleanJapaneseText text
  if cleanText = [] then { s with warnings := s.warnings + 1 }
  else
    let s1 := stopSpeech s
    { s1 with timers := s1.timers ++ [cleanText] }

/-- The delayed callback of `src/data/tts.js` lines 69-123, firing the
oldest pending timer.  Its whole body sits in a `try`: it assigns
`currentUtterance`, sets `isSpeaking = true` just before submitting,
and submits; when the capability throws, the `catch` logs one
diagnostic and resets `isSpeaking` (leaving `currentUtterance` set). -/
def fireTimer (ok : Bool) (s : TtsState) : TtsState :=
  match s.timers with
  | [] => s
  | _clean :: rest =>
    let id := s.nextId
    if ok then
      { s with timers := rest, currentUtterance := some id,
               nextId := id + 1, isSpeaking := true,
               synthQueue := s.synthQueue ++ [id] }
    else
      { s with timers := rest, currentUtterance := some id,
               nextId := id + 1, isSpeaking := false,
               diagnostics := s.diagnostics + 1 }

/-- The `onstart` handler (lines 96-99): set the flag; the capability
marks the head utterance started. -/
def notifyStart (s : TtsState) : TtsState :=
  { s with isSpeaking := true, curStarted := true,
           startsHandled := s.startsHandled + 1 }

/-- The `onend` handler (lines 101-105): clear flag and reference; the
capability retires the head utterance. -/
def notifyEnd (s : TtsState) : TtsState :=
  { s with isSpeaking := false, currentUtterance := none,
           synthQueue := s.synthQueue.tail, curStarted := false }

/-- The `onerror` handler (lines 107-114): log one diagnostic unless
the kind is "interrupted" or "cancelled"; clear flag and reference; the
capability retires the head utterance. -/
def notifyError (kind : List Char) (s : TtsState) : TtsState :=
  let d : Nat := if kind = "interrupted".data ∨ kind = "cancelled".data then 0 else 1
  { s with diagnostics := s.diagnostics + d, isSpeaking := false,
           currentUtterance := none, synthQueue := s.synthQueue.tail,
           curStarted := false }

end Tts

namespace TtsAlt

/-- Synchronous part of `speakJapanese` from `src/unnamed/part_000`
lines 27-81: clean the text; on empty, silently return (no warning);
otherwise, inside a `try`, call `synth.cancel()` when the capability is
speaking or pending, and arm a 500 ms `setTimeout`.  The module flags
are untouched at call time and the timeout is never cleared. -/
def speakJapanese (text : Option (List Char)) (s : TtsState) : TtsState :=
  let cleanText := cleanJapaneseText text
  if cleanText = [] then s
  else
    let s1 := if synthSpeakingB s || synthPendingB s then synthCancel s else s
    { s1 with timers := s1.timers ++ [cleanText] }

/-- The delayed callback of `src/unnamed/part_000` lines 36-77, firing
the oldest pending timer.  The callback body is OUTSIDE the `try` of
the enclosing call, so when the capability throws on submission the
exception escapes uncaught: no diagnostic, no flag reset.  This variant
does not set `isSpeaking` at submission time (only `onstart` does). -/
def fireTimer (ok : Bool) (s : TtsState) : TtsState :=
  match s.timers with
  | [] => s
  | _clean :: rest =>
    let id := s.nextId
    if ok then
      { s with timers := rest, currentUtterance := some id,
               nextId := id + 1, synthQueue := s.synthQueue ++ [id] }
    else
      { s with timers := rest, currentUtterance := some id,
               nextId := id + 1, uncaught := true }

/-- The `onstart` handler (lines 58-61). -/
def notifyStart (s : TtsState) : TtsState :=
  { s with isSpeaking := true, curStarted := true,
           startsHandled := s.startsHandled + 1 }

/-- The `onend` handler (lines 63-66). -/
def notifyEnd (s : TtsState) : TtsState :=
  { s with isSpeaking := false, currentUtterance := none,
           synthQueue := s.synthQueue.tail, curStarted := false }

/-- The `onerror` handler (lines 68-74): log one diagnostic unless the
kind is "interrupted" (a "cancelled" kind IS logged in this variant);
clear flag and reference. -/
def notifyError (kind : List Char) (s : TtsState) : TtsState :=
  let d : Nat := if kind = "interrupted".data then 0 else 1
  { s with diagnostics := s.diagnostics + d, isSpeaking := false,
           currentUtterance := none, synthQueue := s.synthQueue.tail,
           curStarted := false }

end TtsAlt


/-! ## Lemmas about the regex deletion and trimming -/

theorem matchBody_length {cs r : List Char} (h : matchBody cs = some r) :
    r.length ≤ cs.length := by
  induction cs generalizing r with
  | nil => simp [matchBody] at h
  | cons c cs ih =>
    simp only [matchBody] at h
    by_cases hc : isClose c = true
    · simp only [hc, if_true, Option.some.injEq] at h
      subst h
      exact Nat.le_succ _
    · by_cases ht : isLineTerm c = true
      · simp [hc, ht] at h
      · simp only [hc, ht, if_false] at h
        exact Nat.le_succ_of_le (ih h)

theorem removeParensF_irrel : ∀ (f1 f2 : Nat) (l : List Char),
    l.length ≤ f1 → l.length ≤ f2 → removeParensF f1 l = removeParensF f2 l := by
  intro f1
  induction f1 with
  | zero =>
    intro f2 l h1 _
    have hl : l = [] := List.eq_nil_of_length_eq_zero (Nat.le_zero.mp h1)
    subst hl
    cases f2 <;> rfl
  | succ f1 ih =>
    intro f2 l h1 h2
    cases l with
    | nil => cases f2 <;> rfl
    | cons c cs =>
      cases f2 with
      | zero => simp at h2
      | succ f2 =>
        have h1' : cs.length ≤ f1 := Nat.le_of_succ_le_succ (by simpa using h1)
        have h2' : cs.length ≤ f2 := Nat.le_of_succ_le_succ (by simpa using h2)
        simp only [removeParensF]
        by_cases ho : isOpen c = true
        · simp only [ho, if_true]
          cases hm : matchBody cs with
          | none => rw [ih f2 cs h1' h2']
          | some rest =>
            exact ih f2 rest (le_trans (matchBody_length hm) h1')
              (le_trans (matchBody_length hm) h2')
        · simp [ho, ih f2 cs h1' h2']

theorem removeParens_nil : removeParens [] = [] := rfl

theorem removeParens_cons (c : Char) (cs : List Char) :
    removeParens (c :: cs) =
      if isOpen c then
        match matchBody cs with
        | some rest => removeParens rest
        | none => c :: removeParens cs
      else c :: removeParens cs := by
  show removeParensF (cs.length + 1) (c :: cs) = _
  simp only [removeParensF]
  by_cases ho : isOpen c = true
  · simp only [ho, if_true]
    cases hm : matchBody cs with
    | none => rfl
    | some rest =>
      exact removeParensF_irrel cs.length rest.length rest (matchBody_length hm) le_rfl
  · simp [ho, removeParens]

theorem isOpen_isLineTerm {c : Char} (h : isOpen c = true) : isLineTerm c = false := by
  simp only [isOpen, Bool.or_eq_true, beq_iff_eq] at h
  rcases h with h | h <;> subst h <;> rfl

theorem matchBody_none_pres : ∀ (fuel : Nat) (cs : List Char), cs.length ≤ fuel →
    matchBody cs = none → matchBody (removeParensF fuel cs) = none := by
  intro fuel
  induction fuel with
  | zero =>
    intro cs h hm
    have hl : cs = [] := List.eq_nil_of_length_eq_zero (Nat.le_zero.mp h)
    subst hl
    exact hm
  | succ fuel ih =>
    intro cs h hm
    cases cs with
    | nil => exact hm
    | cons c cs =>
      have hcs : cs.length ≤ fuel := Nat.le_of_succ_le_succ (by simpa using h)
      simp only [matchBody] at hm
      by_cases hcl : isClose c = true
      · simp [hcl] at hm
      · by_cases ht : isLineTerm c = true
        · simp only [removeParensF]
          by_cases ho : isOpen c = true
          · rw [isOpen_isLineTerm ho] at ht
            cases ht
          · simp [ho, matchBody, hcl, ht]
        · simp only [hcl, ht, if_false] at hm
          simp only [removeParensF]
          by_cases ho : isOpen c = true
          · simp only [ho, if_true]
            cases hmm : matchBody cs with
            | some rest => rw [hmm] at hm; cases hm
            | none =>
              simp only [matchBody, hcl, if_false, ht]
              exact ih cs hcs hm
          · simp only [ho, if_false, matchBody, hcl, if_false, ht]
            exact ih cs hcs hm

theorem hasMatch_removeParensF : ∀ (fuel : Nat) (l : List Char), l.length ≤ fuel →
    hasMatch (removeParensF fuel l) = false := by
  intro fuel
  induction fuel with
  | zero =>
    intro l h
    have hl : l = [] := List.eq_nil_of_length_eq_zero (Nat.le_zero.mp h)
    subst hl
    rfl
  | succ fuel ih =>
    intro l h
    cases l with
    | nil => rfl
    | cons c cs =>
      have hcs : cs.length ≤ fuel := Nat.le_of_succ_le_succ (by simpa using h)
      simp only [removeParensF]
      by_cases ho : isOpen c = true
      · simp only [ho, if_true]
        cases hm : matchBody cs with
        | some rest => exact ih rest (le_trans (matchBody_length hm) hcs)
        | none =>
          simp only [hasMatch, ih cs hcs, Bool.or_false]
          rw [matchBody_none_pres fuel cs hcs hm]
          simp
      · simp only [ho, if_false, hasMatch, ih cs hcs, Bool.or_false, Bool.false_and]

theorem hasMatch_removeParens (l : List Char) : hasMatch (removeParens l) = false :=
  hasMatch_removeParensF l.length l le_rfl

theorem removeParens_eq_self {l : List Char} (h : hasMatch l = false) :
    removeParens l = l := by
  induction l with
  | nil => rfl
  | cons c cs ih =>
    simp only [hasMatch, Bool.or_eq_false_iff, Bool.and_eq_false_iff] at h
    rw [removeParens_cons]
    by_cases ho : isOpen c = true
    · rcases h.1 with h1 | h1
      · rw [ho] at h1; cases h1
      · have hm : matchBody cs = none := by
          cases hmm : matchBody cs with
          | none => rfl
          | some r => rw [hmm] at h1; cases h1
        simp only [ho, if_true, hm]
        rw [ih h.2]
    · simp [ho, ih h.2]

theorem matchBody_append {as r : List Char} (w : List Char)
    (h : matchBody as = some r) : matchBody (as ++ w) = some (r ++ w) := by
  induction as generalizing r with
  | nil => simp [matchBody] at h
  | cons c cs ih =>
    simp only [matchBody] at h
    simp only [List.cons_append, matchBody]
    by_cases hc : isClose c = true
    · simp only [hc, if_true, Option.some.injEq] at h ⊢
      rw [h]
      rfl
    · by_cases ht : isLineTerm c = true
      · simp [hc, ht] at h
      · simp only [hc, ht, if_false] at h ⊢
        exact ih h

theorem hasMatch_tail {c : Char} {t : List Char} (h : hasMatch (c :: t) = false) :
    hasMatch t = false := by
  simp only [hasMatch, Bool.or_eq_false_iff] at h
  exact h.2

theorem hasMatch_append_left {z : List Char} (w : List Char)
    (h : hasMatch z = true) : hasMatch (z ++ w) = true := by
  induction z with
  | nil => simp [hasMatch] at h
  | cons c cs ih =>
    simp only [hasMatch, Bool.or_eq_true] at h
    simp only [List.cons_append, hasMatch, Bool.or_eq_true]
    rcases h with h | h
    · left
      have h' : isOpen c = true ∧ (matchBody cs).isSome = true := by simpa using h
      rw [h'.1]
      have h2 := h'.2
      cases hm : matchBody cs with
      | none => rw [hm] at h2; simp at h2
      | some r => simp [matchBody_append w hm]
    · right; exact ih h

theorem hasMatch_of_append {z w : List Char} (h : hasMatch (z ++ w) = false) :
    hasMatch z = false := by
  cases hz : hasMatch z with
  | false => rfl
  | true => rw [hasMatch_append_left w hz] at h; cases h

theorem hasMatch_append_right : ∀ {z w : List Char},
    hasMatch (z ++ w) = false → hasMatch w = false := by
  intro z
  induction z with
  | nil => intro w h; simpa using h
  | cons c cs ih =>
    intro w h
    exact ih (hasMatch_tail (by simpa using h))

/-! trimming -/

theorem dropWhile_dropWhile (p : Char → Bool) (l : List Char) :
    (l.dropWhile p).dropWhile p = l.dropWhile p := by
  induction l with
  | nil => rfl
  | cons c cs ih =>
    by_cases h : p c = true
    · simp [List.dropWhile_cons, h, ih]
    · simp [List.dropWhile_cons, h]

theorem length_dropWhile_le (p : Char → Bool) (l : List Char) :
    (l.dropWhile p).length ≤ l.length := by
  induction l with
  | nil => exact le_rfl
  | cons c cs ih =>
    by_cases h : p c = true
    · simp only [List.dropWhile_cons, h, if_true]
      exact Nat.le_succ_of_le ih
    · simp [List.dropWhile_cons, h]

theorem trimL_trimL (l : List Char) : trimL (trimL l) = trimL l :=
  dropWhile_dropWhile isWS l

theorem trimR_trimR (l : List Char) : trimR (trimR l) = trimR l := by
  simp only [trimR, List.reverse_reverse, trimL_trimL]

theorem trimR_append (l : List Char) : ∃ w, l = trimR l ++ w := by
  refine ⟨(l.reverse.takeWhile isWS).reverse, ?_⟩
  have h := List.takeWhile_append_dropWhile isWS l.reverse
  have h2 := congrArg List.reverse h
  rw [List.reverse_append, List.reverse_reverse] at h2
  exact h2.symm

theorem trimL_eq_self_head {l m : List Char} (h : trimL l = l)
    (hm : ∃ w, l = m ++ w) : trimL m = m := by
  obtain ⟨w, hw⟩ := hm
  cases m with
  | nil => rfl
  | cons c cs =>
    subst hw
    by_cases hc : isWS c = true
    · exfalso
      simp only [trimL, List.cons_append, List.dropWhile_cons, hc, if_true] at h
      have hlen := congrArg List.length h
      have hle := length_dropWhile_le isWS (cs ++ w)
      simp only [List.length_cons] at hlen
      omega
    · simp [trimL, List.dropWhile_cons, hc]

theorem trimStr_trimStr (l : List Char) : trimStr (trimStr l) = trimStr l := by
  show trimR (trimL (trimR (trimL l))) = trimR (trimL l)
  rw [trimL_eq_self_head (trimL_trimL l) (trimR_append (trimL l)), trimR_trimR]

theorem hasMatch_trimL {l : List Char} (h : hasMatch l = false) :
    hasMatch (trimL l) = false := by
  have hsplit : l.takeWhile isWS ++ trimL l = l :=
    List.takeWhile_append_dropWhile isWS l
  exact @hasMatch_append_right (l.takeWhile isWS) (trimL l) (by rw [hsplit]; exact h)

theorem hasMatch_trimR {l : List Char} (h : hasMatch l = false) :
    hasMatch (trimR l) = false := by
  obtain ⟨w, hw⟩ := trimR_append l
  exact @hasMatch_of_append (trimR l) w (by rw [← hw]; exact h)

theorem hasMatch_trimStr {l : List Char} (h : hasMatch l = false) :
    hasMatch (trimStr l) = false :=
  hasMatch_trimR (hasMatch_trimL h)

theorem hasMatch_clean (x : List Char) :
    hasMatch (cleanJapaneseText (some x)) = false := by
  by_cases hx : x = []
  · subst hx; rfl
  · simp only [cleanJapaneseText, hx, if_false]
    exact hasMatch_trimStr (hasMatch_removeParens x)

/-! ## The claims -/

/-- Claim C1, as stated, is false on the code: two `speakJapanese` calls
in rapid succession (both before either settling delay elapses), each
with the non-empty cleaned text "test", leave TWO utterances
outstanding (submitted-but-not-yet-resolved) after both delayed
submissions fire, because nothing ever cancels a pending scheduled
submission. -/
theorem C1_counterexample :
    (Tts.fireTimer true (Tts.fireTimer true
      (Tts.speakJapanese (some "test".data)
        (Tts.speakJapanese (some "test".data) initState)))).synthQueue.length = 2 := by
  decide

/-- Claim C1 (amended): a `speakJapanese` call with non-empty cleaned
text hard-cancels the capability (clearing its queue) exactly when the
capability is currently speaking, but it never cancels the pending
scheduled submission of an earlier call — scheduled submissions only
accumulate — so after two rapid calls and both settling delays two
utterances are outstanding at once. -/
theorem C1_amended :
    (∀ (s : TtsState) (t : Option (List Char)),
      (Tts.speakJapanese t s).timers =
        (if cleanJapaneseText t = [] then s.timers
         else s.timers ++ [cleanJapaneseText t]) ∧
      (Tts.speakJapanese t s).synthQueue =
        (if cleanJapaneseText t = [] ∨ synthSpeakingB s = false
         then s.synthQueue else []) ∧
      (Tts.speakJapanese t s).cancels =
        (if cleanJapaneseText t = [] ∨ synthSpeakingB s = false
         then s.cancels else s.cancels + 1)) ∧
    (Tts.fireTimer true (Tts.fireTimer true
      (Tts.speakJapanese (some "test".data)
        (Tts.speakJapanese (some "test".data) initState)))).synthQueue.length = 2 := by
  constructor
  · intro s t
    by_cases ht : cleanJapaneseText t = []
    · simp [Tts.speakJapanese, ht]
    · by_cases hs : synthSpeakingB s = true
      · simp [Tts.speakJapanese, stopSpeech, synthCancel, ht, hs]
      · simp [Tts.speakJapanese, stopSpeech, synthCancel, ht, hs]
  · decide

/-- Claim C2, as stated, is false on the code: after one `speakJapanese`
call and its delayed submission, `isTTSSpeaking` already returns true
although no start notification has been handled — `src/data/tts.js`
sets the flag optimistically at submission time. -/
theorem C2_counterexample :
    isTTSSpeaking (Tts.fireTimer true
      (Tts.speakJapanese (some "test".data) initState)) = true ∧
    (Tts.fireTimer true
      (Tts.speakJapanese (some "test".data) initState)).startsHandled = 0 := by
  decide

/-- Claim C2 (amended): `isTTSSpeaking` is a pure, side-effect-free
read of the `isSpeaking` flag, but in `src/data/tts.js` the flag is set
optimistically at submission time (the delayed action sets it before
`synth.speak`, handling no start notification), so it can be true
before any start notification; only the `part_000` variant leaves the
flag untouched at submission and sets it solely in the start
handler. -/
theorem C2_amended :
    (∀ s : TtsState, isTTSSpeaking s = s.isSpeaking) ∧
    (∀ s : TtsState, s.timers ≠ [] →
      isTTSSpeaking (Tts.fireTimer true s) = true ∧
      (Tts.fireTimer true s).startsHandled = s.startsHandled) ∧
    (∀ s : TtsState, (TtsAlt.fireTimer true s).isSpeaking = s.isSpeaking) ∧
    (∀ s : TtsState, isTTSSpeaking (Tts.notifyStart s) = true ∧
      (Tts.notifyStart s).startsHandled = s.startsHandled + 1) := by
  refine ⟨fun s => rfl, ?_, ?_, fun s => ⟨rfl, rfl⟩⟩
  · intro s h
    cases htm : s.timers with
    | nil => exact absurd htm h
    | cons a rest =>
      exact ⟨by simp [Tts.fireTimer, isTTSSpeaking, htm],
             by simp [Tts.fireTimer, htm]⟩
  · intro s
    cases htm : s.timers with
    | nil => simp [TtsAlt.fireTimer, htm]
    | cons a rest => simp [TtsAlt.fireTimer, htm]

/-- Witness for C2 at a concrete state with a pending timer. -/
theorem C2_witness :
    isTTSSpeaking (Tts.fireTimer true
      (Tts.speakJapanese (some "test".data) initState)) = true ∧
    (Tts.fireTimer true
        (Tts.speakJapanese (some "test".data) initState)).startsHandled =
      (Tts.speakJapanese (some "test".data) initState).startsHandled :=
  C2_amended.2.1 (Tts.speakJapanese (some "test".data) initState) (by decide)

/-- Claim C3, as stated, is false on the code: in the `part_000`
variant an error notification of kind "cancelled" emits one diagnostic
(only "interrupted" is suppressed there). -/
theorem C3_counterexample :
    (TtsAlt.notifyError "cancelled".data initState).diagnostics = 1 ∧
    initState.diagnostics = 0 := by
  decide

/-- Claim C3 (amended): on every capability error notification both
variants transition to Idle (`isSpeaking` false) and clear the stored
utterance reference; `src/data/tts.js` suppresses the diagnostic for
kinds "interrupted" and "cancelled" and emits exactly one for every
other kind, while `part_000` suppresses only "interrupted" ("cancelled"
emits one diagnostic there). -/
theorem C3_amended :
    ∀ (s : TtsState) (kind : List Char),
      (Tts.notifyError kind s).diagnostics =
        s.diagnostics +
          (if kind = "interrupted".data ∨ kind = "cancelled".data then 0 else 1) ∧
      (Tts.notifyError kind s).isSpeaking = false ∧
      (Tts.notifyError kind s).currentUtterance = none ∧
      (TtsAlt.notifyError kind s).diagnostics =
        s.diagnostics + (if kind = "interrupted".data then 0 else 1) ∧
      (TtsAlt.notifyError kind s).isSpeaking = false ∧
      (TtsAlt.notifyError kind s).currentUtterance = none := by
  intro s kind
  exact ⟨rfl, rfl, rfl, rfl, rfl, rfl⟩

/-- Claim C4, as stated, is false on the code: in the `part_000`
variant the delayed submission action sits outside the `try`, so a
capability throw on submit escapes uncaught, with no diagnostic
emitted. -/
theorem C4_counterexample :
    (TtsAlt.fireTimer false
      (TtsAlt.speakJapanese (some "test".data) initState)).uncaught = true ∧
    (TtsAlt.fireTimer false
      (TtsAlt.speakJapanese (some "test".data) initState)).diagnostics = 0 := by
  decide

/-- Claim C4 (amended): in `src/data/tts.js` no fault escapes from
`speakJapanese`, `stopSpeech` or the delayed action: a submission
failure inside the delayed action is caught, sets `isSpeaking` false,
emits exactly one diagnostic and arms no new timer (nothing is
retried); in the `part_000` variant the same failure escapes as an
uncaught exception with no diagnostic and no flag change. -/
theorem C4_amended :
    (∀ (t : Option (List Char)) (s : TtsState),
       (Tts.speakJapanese t s).uncaught = s.uncaught) ∧
    (∀ (ok : Bool) (s : TtsState), (Tts.fireTimer ok s).uncaught = s.uncaught) ∧
    (∀ s : TtsState, (stopSpeech s).uncaught = s.uncaught) ∧
    (∀ s : TtsState, s.timers ≠ [] →
       (Tts.fireTimer false s).diagnostics = s.diagnostics + 1 ∧
       (Tts.fireTimer false s).isSpeaking = false ∧
       (Tts.fireTimer false s).timers = s.timers.tail) ∧
    (∀ s : TtsState, s.timers ≠ [] →
       (TtsAlt.fireTimer false s).uncaught = true ∧
       (TtsAlt.fireTimer false s).diagnostics = s.diagnostics ∧
       (TtsAlt.fireTimer false s).isSpeaking = s.isSpeaking) := by
  refine ⟨?_, ?_, ?_, ?_, ?_⟩
  · intro t s
    by_cases ht : cleanJapaneseText t = []
    · simp [Tts.speakJapanese, ht]
    · by_cases hs : synthSpeakingB s = true <;>
        simp [Tts.speakJapanese, stopSpeech, synthCancel, ht, hs]
  · intro ok s
    cases htm : s.timers with
    | nil => simp [Tts.fireTimer, htm]
    | cons a rest => cases ok <;> simp [Tts.fireTimer, htm]
  · intro s
    by_cases hs : synthSpeakingB s = true <;> simp [stopSpeech, synthCancel, hs]
  · intro s h
    cases htm : s.timers with
    | nil => exact absurd htm h
    | cons a rest => exact ⟨by simp [Tts.fireTimer, htm], by simp [Tts.fireTimer, htm],
                            by simp [Tts.fireTimer, htm]⟩
  · intro s h
    cases htm : s.timers with
    | nil => exact absurd htm h
    | cons a rest => exact ⟨by simp [TtsAlt.fireTimer, htm], by simp [TtsAlt.fireTimer, htm],
                            by simp [TtsAlt.fireTimer, htm]⟩

/-- Witness for C4 at concrete states with a pending timer. -/
theorem C4_witness :
    (Tts.speakJapanese (some "test".data) initState).uncaught = initState.uncaught ∧
    ((Tts.fireTimer false (Tts.speakJapanese (some "test".data) initState)).diagnostics =
        (Tts.speakJapanese (some "test".data) initState).diagnostics + 1 ∧
      (Tts.fireTimer false (Tts.speakJapanese (some "test".data) initState)).isSpeaking = false ∧
      (Tts.fireTimer false (Tts.speakJapanese (some "test".data) initState)).timers =
        (Tts.speakJapanese (some "test".data) initState).timers.tail) ∧
    ((TtsAlt.fireTimer false (TtsAlt.speakJapanese (some "test".data) initState)).uncaught = true ∧
      (TtsAlt.fireTimer false (TtsAlt.speakJapanese (some "test".data) initState)).diagnostics =
        (TtsAlt.speakJapanese (some "test".data) initState).diagnostics ∧
      (TtsAlt.fireTimer false (TtsAlt.speakJapanese (some "test".data) initState)).isSpeaking =
        (TtsAlt.speakJapanese (some "test".data) initState).isSpeaking) :=
  ⟨C4_amended.1 (some "test".data) initState,
   C4_amended.2.2.2.1 (Tts.speakJapanese (some "test".data) initState) (by decide),
   C4_amended.2.2.2.2 (TtsAlt.speakJapanese (some "test".data) initState) (by decide)⟩

/-- Claim C5, as stated, is false on the code: on the input
consisting of a newline followed by "abc" the first segment is empty
and the second is "abc", the first NON-EMPTY segment rule of the spec
yields "abc", but `extractJapaneseOnly` takes `lines[0]` (the empty
segment) and returns the empty string. -/
theorem C5_counterexample :
    specExtractPrimaryText (some "\nabc".data) = "abc".data ∧
    extractJapaneseOnly (some "\nabc".data) = [] := by
  decide

/-- Claim C5 (amended): `extractJapaneseOnly` splits on newline and
takes the FIRST segment whether or not it is empty; the fallback to
`cleanJapaneseText` on the whole raw input is unreachable because the
split always yields at least one segment; on the mixed content
example it returns the Japanese word as the spec states. -/
theorem C5_amended :
    (∀ l : List Char, 1 ≤ (splitNL l).length) ∧
    extractJapaneseOnly
        (some "漢字（かんじ）<br>kanji (Chinese character)".data) = "漢字".data ∧
    extractJapaneseOnly (some "\nabc".data) = [] := by
  refine ⟨?_, by decide, by decide⟩
  intro l
  induction l with
  | nil => simp [splitNL]
  | cons c cs ih =>
    by_cases hc : (c == '\n') = true
    · simp [splitNL, hc]
    · simp only [splitNL, hc, if_false]
      cases h : splitNL cs with
      | nil => simp
      | cons a as => simp

/-- Claim C6, as stated, is false on the code: in the `part_000`
variant an empty input is a complete no-op — no warning is signaled at
all (the state equality below includes the warning counter). -/
theorem C6_counterexample :
    TtsAlt.speakJapanese none initState = initState ∧
    (TtsAlt.speakJapanese none initState).warnings = 0 := by
  decide

/-- Claim C6 (amended): for every input whose cleaned text is empty
(including the null and empty strings and annotation-only strings),
`speakJapanese` leaves the whole speech state unchanged — flags,
stored reference, capability queue, cancel count and pending timers —
in both variants; `src/data/tts.js` additionally signals exactly one
diagnostic warning, while `part_000` signals nothing. -/
theorem C6_amended :
    ∀ (s : TtsState) (t : Option (List Char)), cleanJapaneseText t = [] →
      Tts.speakJapanese t s = { s with warnings := s.warnings + 1 } ∧
      TtsAlt.speakJapanese t s = s := by
  intro s t h
  exact ⟨by simp [Tts.speakJapanese, h], by simp [TtsAlt.speakJapanese, h]⟩

/-- Witness for C6 on an annotation-only input, whose cleaned text is
empty. -/
theorem C6_witness :
    Tts.speakJapanese (some "（かんじ）".data) initState =
      { initState with warnings := initState.warnings + 1 } ∧
    TtsAlt.speakJapanese (some "（かんじ）".data) initState = initState :=
  C6_amended initState (some "（かんじ）".data) (by decide)

/-- Claim C7, as stated, is false on the code: the input "(a)("
contains a parenthesized group, yet the output of `cleanJapaneseText`
still contains a parenthesis character (the dangling opener
survives). -/
theorem C7_counterexample :
    hasParenGroup "(a)(".data = true ∧
    (cleanJapaneseText (some "(a)(".data)).any isParenChar = true := by
  decide

/-- Claim C7 (amended): for every input string the output of
`cleanJapaneseText` contains no spot the deletion regex could still
match (no opening parenthesis followed, without an intervening line
terminator, by a closing parenthesis) — though unmatched parenthesis
characters may survive — and the null and empty inputs both map to the
empty string. -/
theorem C7_amended :
    (∀ x : List Char, hasMatch (cleanJapaneseText (some x)) = false) ∧
    cleanJapaneseText none = [] ∧
    cleanJapaneseText (some []) = [] :=
  ⟨hasMatch_clean, rfl, rfl⟩

/-- Claim C8: `cleanJapaneseText` is idempotent — cleaning an already
cleaned string changes nothing, for every input string. -/
theorem C8_clean_idempotent :
    ∀ x : List Char,
      cleanJapaneseText (some (cleanJapaneseText (some x))) =
        cleanJapaneseText (some x) := by
  intro x
  by_cases hx : x = []
  · subst hx; rfl
  · have hz : cleanJapaneseText (some x) = trimStr (removeParens x) := by
      simp [cleanJapaneseText, hx]
    rw [hz]
    by_cases hzn : trimStr (removeParens x) = []
    · rw [hzn]; rfl
    · simp only [cleanJapaneseText, hzn, if_false]
      rw [removeParens_eq_self (hasMatch_trimStr (hasMatch_removeParens x)),
        trimStr_trimStr]

/-- Claim C9: `stopSpeech` is callable in every state; immediately
afterwards `isTTSSpeaking` is false and the stored utterance reference
is cleared; a hard cancel is issued to the capability exactly when the
capability reports it is producing audio; when it does not, the call
is a no-op beyond resetting the flag and the reference. -/
theorem C9_stopSpeech :
    ∀ s : TtsState,
      isTTSSpeaking (stopSpeech s) = false ∧
      (stopSpeech s).currentUtterance = none ∧
      (stopSpeech s).cancels =
        s.cancels + (if synthSpeakingB s = true then 1 else 0) ∧
      (synthSpeakingB s = false →
        stopSpeech s = { s with isSpeaking := false, currentUtterance := none }) := by
  intro s
  by_cases hs : synthSpeakingB s = true
  · refine ⟨rfl, rfl, by simp [stopSpeech, synthCancel, hs], ?_⟩
    intro h
    rw [hs] at h
    cases h
  · refine ⟨rfl, rfl, by simp [stopSpeech, synthCancel, hs], ?_⟩
    intro _
    simp [stopSpeech, hs]

/-- Witness for C9 at the initial (Idle) state. -/
theorem C9_witness :
    isTTSSpeaking (stopSpeech initState) = false ∧
    (stopSpeech initState).currentUtterance = none ∧
    (stopSpeech initState).cancels =
      initState.cancels + (if synthSpeakingB initState = true then 1 else 0) ∧
    stopSpeech initState =
      { initState with isSpeaking := false, currentUtterance := none } := by
  obtain ⟨a, b, c, d⟩ := C9_stopSpeech initState
  exact ⟨a, b, c, d rfl⟩

/-- Claim C10: every substring the cleaning regex removes starts at an
opening parenthesis of either width class and ends at the NEXT closing
parenthesis of either width class (the consumed body contains no
closing parenthesis and no line terminator), so a mismatched-width
group such as the one in the example, with half-width opener and
full-width closer, is removed like a matched pair. -/
theorem C10_mixedWidth :
    (∀ (cs rest : List Char), matchBody cs = some rest →
       ∃ pre cl, cs = pre ++ cl :: rest ∧ isClose cl = true ∧
         ∀ x ∈ pre, isClose x = false ∧ isLineTerm x = false) ∧
    (∀ (c : Char) (cs rest : List Char), isOpen c = true → matchBody cs = some rest →
       removeParens (c :: cs) = removeParens rest) ∧
    cleanJapaneseText (some "渇く(かわく）".data) = "渇く".data := by
  refine ⟨?_, ?_, by decide⟩
  · intro cs
    induction cs with
    | nil => intro rest h; simp [matchBody] at h
    | cons c cs ih =>
      intro rest h
      simp only [matchBody] at h
      by_cases hc : isClose c = true
      · simp only [hc, if_true, Option.some.injEq] at h
        subst h
        exact ⟨[], c, rfl, hc, by simp⟩
      · by_cases ht : isLineTerm c = true
        · simp [hc, ht] at h
        · simp only [hc, ht, if_false] at h
          obtain ⟨pre, cl, hsplit, hcl, hpre⟩ := ih rest h
          refine ⟨c :: pre, cl, by rw [hsplit]; rfl, hcl, ?_⟩
          intro x hx
          rcases List.mem_cons.mp hx with hx | hx
          · subst hx
            exact ⟨by simpa using hc, by simpa using ht⟩
          · exact hpre x hx
  · intro c cs rest ho hm
    rw [removeParens_cons]
    simp [ho, hm]

/-- Witness for C10 on a concrete mismatched-width match. -/
theorem C10_witness :
    (∃ pre cl, "かわく）x".data = pre ++ cl :: "x".data ∧ isClose cl = true ∧
       ∀ y ∈ pre, isClose y = false ∧ isLineTerm y = false) ∧
    removeParens ('(' :: "かわく）x".data) = removeParens "x".data :=
  ⟨C10_mixedWidth.1 "かわく）x".data "x".data (by decide),
   C10_mixedWidth.2.1 '(' "かわく）x".data "x".data (by decide) (by decide)⟩
